import Mathlib

/-!
Verification development for the streaming-transcription core of the
ai-meeting-assistant repository.

The embedding covers:
  * `src/stt_engine.py` — the `STTEngine` recording state machine, PCM buffer
    accumulation, the batch full/partial recognition passes, language locking,
    speaker-gap tracking and cumulative time offsets;
  * `src/app.py` — the bounded audio queue, the inbound chunk handler, the
    session-id tagging/drain logic of the start/stop handlers, and the
    ingestion worker loop;
  * `src/utils.py` — `sanitize_meeting_name`.

The recognition backend (`faster_whisper.WhisperModel.transcribe`) is an
external library; it is modelled as an oracle: a function from the forced
language option to either an error (the backend raised) or a list of raw
segments plus a detection info record.  The `whisper.cpp` subprocess branch of
the engine is outside the modelled claims (it shells out to a binary and the
filesystem) and is not embedded; the modelled engine is the faster-whisper
path, which is the code the claims cite.
-/

namespace MeetingSTT

/-- Recording lifecycle states, from `class State(Enum)` in src/stt_engine.py. -/
inductive State where
  | idle
  | recording
  | paused
  | stopped
deriving DecidableEq, Repr

/-- The `.value` string of each state, as returned by the Python handlers. -/
def State.value : State → String
  | .idle => "idle"
  | .recording => "recording"
  | .paused => "paused"
  | .stopped => "stopped"

/-- A raw segment as reported by the recognition backend: per-buffer start and
end times (seconds) and the raw text (`seg.start`, `seg.end`, `seg.text`). -/
structure BSeg where
  bstart : ℚ
  bend : ℚ
  text : String
deriving DecidableEq, Repr

/-- The backend detection info (`info.language`); an empty string models a
falsy/absent detection. -/
structure BInfo where
  language : String
deriving DecidableEq, Repr

/-- Outcome of one backend `transcribe` call: `error` models the backend
raising an exception, `ok` a normal return. -/
abbrev BackendResult := Except String (List BSeg × BInfo)

/-- A backend oracle: the response of `self._model.transcribe(...)` as a
function of the `language` keyword argument passed to it (`none` = auto). -/
abbrev Oracle := Option String → BackendResult

/-- A finalized segment as built by `STTEngine._do_transcribe`. -/
structure Seg where
  text : String
  start : ℚ
  stop : ℚ
  language : String
  speaker : Nat
deriving DecidableEq, Repr

/-- Result of `feed_audio`: the dict with keys `final`/`partial`. -/
structure FeedResult where
  final : List Seg
  partial_text : String
deriving DecidableEq, Repr

/-- The mutable state of `STTEngine` (src/stt_engine.py `__init__`):
PCM buffer (float samples), running time offset, speaker tracking, language
lock and partial-emission cooldown.  The write-only `_speaker_counter` field is
omitted (it is assigned but never read anywhere in the source).

`deferred_error` — Modelled from the spec: the per-instance deferred error
channel (`get_and_clear_error`, spec section 4.3) belongs to the streaming
recognizer variant whose source is not under src/; app.py's worker reads it
after every feed.  The batch engine embedded here never sets it. -/
structure Engine where
  state : State
  pcm_buffer : List ℚ
  time_offset_sec : ℚ
  current_speaker : Nat
  last_segment_end : ℚ
  locked_language : Option String
  last_partial_emit_sec : ℚ
  deferred_error : Option String
deriving DecidableEq, Repr

/-- Initial engine state after `__init__`. -/
def Engine.init : Engine :=
  { state := State.idle
    pcm_buffer := []
    time_offset_sec := 0
    current_speaker := 1
    last_segment_end := 0
    locked_language := none
    last_partial_emit_sec := 0
    deferred_error := none }

/-- `TRANSCRIBE_INTERVAL_MS = 5000`. -/
def TRANSCRIBE_INTERVAL_MS : Nat := 5000

/-- `PARTIAL_INTERVAL_MS = 1000`. -/
def PARTIAL_INTERVAL_MS : Nat := 1000

/-- `SAMPLE_RATE = 16000`. -/
def SAMPLE_RATE : Nat := 16000

/-- `SPEAKER_GAP_THRESHOLD = 1.5` (seconds). -/
def speaker_gap_threshold : ℚ := 3 / 2

/-- `PROMPT_ECHO_PHRASES` from src/stt_engine.py. -/
def PROMPT_ECHO_PHRASES : List String :=
  [ "請以繁體中文為主"
  , "請以繁體中文為主，保留英文專有名詞與縮寫，並使用正確標點符號"
  , "請以繁體中文為主，並使用正確標點符號"
  , "以下是一段中英語"
  , "以下是一段中英混合的會議對話逐字稿" ]

/-- Does `pat` occur as a prefix of `l`? (helper for substring containment). -/
def starts_with : List Char → List Char → Bool
  | [], _ => true
  | _ :: _, [] => false
  | p :: ps, c :: cs => p == c && starts_with ps cs

/-- Does `pat` occur as a contiguous substring of `l`?  Models Python's
`phrase in text`. -/
def contains_sub (pat : List Char) : List Char → Bool
  | [] => pat.isEmpty
  | c :: cs => starts_with pat (c :: cs) || contains_sub pat cs

/-- `any(phrase in text for phrase in PROMPT_ECHO_PHRASES)`. -/
def is_echo (t : String) : Bool :=
  PROMPT_ECHO_PHRASES.any fun p => contains_sub p.data t.data

/-- Little-endian signed 16-bit decode of one sample from two byte values. -/
def toInt16 (lo hi : Nat) : Int :=
  let v := lo + 256 * hi
  if v < 32768 then (v : Int) else (v : Int) - 65536

/-- Decode consecutive byte pairs into float samples (`int16 / 32768.0`); a
trailing odd byte is ignored by this decoder (it is only ever applied to
even-length buffers by the embedded code). -/
def bytes_to_samples : List Nat → List ℚ
  | lo :: hi :: rest => ((toInt16 lo hi : ℚ) / 32768) :: bytes_to_samples rest
  | _ => []

/-- `STTEngine._append_pcm_chunk`: `np.frombuffer(chunk, dtype=np.int16)`
raises `ValueError` on a buffer whose byte length is not a multiple of 2; the
surrounding `try/except` catches and logs it, leaving the buffer unchanged.
An empty decode (`pcm16.size == 0`) also returns without change; otherwise the
decoded samples are concatenated onto the buffer. -/
def append_pcm_chunk (chunk : List Nat) (e : Engine) : Engine :=
  if chunk.length % 2 ≠ 0 then e
  else if chunk.length = 0 then e
  else { e with pcm_buffer := e.pcm_buffer ++ bytes_to_samples chunk }

/-- `STTEngine._get_buffer_duration_ms`: `int((size / 16000) * 1000)`,
modelled as exact rational arithmetic followed by floor. -/
def duration_ms (e : Engine) : Nat :=
  e.pcm_buffer.length * 1000 / SAMPLE_RATE

/-- The per-segment loop body of `STTEngine._do_transcribe`: offsets each raw
segment by `off`, applies the speaker-gap heuristic, drops empty and
prompt-echo texts.  Returns the emitted segments together with the final
`current_speaker` and `last_segment_end`. -/
def process_segs (off : ℚ) (lang : String) : Nat → ℚ → List BSeg → List Seg × Nat × ℚ
  | spk, lastEnd, [] => ([], spk, lastEnd)
  | spk, lastEnd, bs :: rest =>
    let seg_start := bs.bstart + off
    let seg_end := bs.bend + off
    let gap := seg_start - lastEnd
    let spk' := if 0 < lastEnd ∧ speaker_gap_threshold < gap then spk + 1 else spk
    let t := bs.text.trim
    let r := process_segs off lang spk' seg_end rest
    if t = "" then r
    else if is_echo t then r
    else (⟨t, seg_start, seg_end, lang, spk'⟩ :: r.1, r.2)

/-- `STTEngine._do_transcribe`: empty buffer returns no segments; a backend
exception is caught, logged and yields no segments with nothing mutated; on
success the language is locked to `"zh"` on the first truthy detection other
than `"ko"`, the raw segments are processed, the time offset advances by the
buffer's duration and the buffer is cleared. -/
def do_transcribe (bf : Oracle) (e : Engine) : Engine × List Seg :=
  if e.pcm_buffer = [] then (e, [])
  else
    match bf e.locked_language with
    | .error _ => (e, [])
    | .ok (bsegs, info) =>
      let locked' :=
        if e.locked_language = none ∧ info.language ≠ "" ∧ info.language ≠ "ko" then
          some "zh"
        else e.locked_language
      let r := process_segs e.time_offset_sec info.language e.current_speaker e.last_segment_end bsegs
      ({ e with
          locked_language := locked'
          current_speaker := r.2.1
          last_segment_end := r.2.2
          time_offset_sec := e.time_offset_sec + (e.pcm_buffer.length : ℚ) / (SAMPLE_RATE : ℚ)
          pcm_buffer := [] }, r.1)

/-- `STTEngine._transcribe_remaining`: nothing to do on an empty buffer,
otherwise one full pass. -/
def transcribe_remaining (bf : Oracle) (e : Engine) : Engine × List Seg :=
  if e.pcm_buffer = [] then (e, [])
  else do_transcribe bf e

/-- `STTEngine._maybe_partial`: the low-latency pass over the trailing window.
It never touches the main buffer or the time offset; on the cooldown branch or
a backend exception it returns the empty string; on success it may lock the
language (same rule as the full pass), records the emission time and joins the
surviving texts. -/
def maybe_partial_text (bp : Oracle) (e : Engine) : Engine × String :=
  let total_sec : ℚ := (e.pcm_buffer.length : ℚ) / (SAMPLE_RATE : ℚ)
  if total_sec - e.last_partial_emit_sec < (PARTIAL_INTERVAL_MS : ℚ) / 1000 then (e, "")
  else
    match bp e.locked_language with
    | .error _ => (e, "")
    | .ok (bsegs, info) =>
      let locked' :=
        if e.locked_language = none ∧ info.language ≠ "" ∧ info.language ≠ "ko" then
          some "zh"
        else e.locked_language
      let parts := bsegs.filterMap fun bs =>
        let t := bs.text.trim
        if t = "" then none else if is_echo t then none else some t
      ({ e with locked_language := locked', last_partial_emit_sec := total_sec },
        (String.intercalate " " parts).trim)

/-- `STTEngine.feed_audio`: no-op unless Recording; append the chunk, run the
partial pass once a second of audio has accumulated, and run the full pass
once the buffer reaches `TRANSCRIBE_INTERVAL_MS`. -/
def feed_audio (bp bf : Oracle) (chunk : List Nat) (e : Engine) : Engine × FeedResult :=
  if e.state ≠ State.recording then (e, ⟨[], ""⟩)
  else
    let e1 := append_pcm_chunk chunk e
    let d := duration_ms e1
    let pr := if PARTIAL_INTERVAL_MS ≤ d then maybe_partial_text bp e1 else (e1, "")
    if d < TRANSCRIBE_INTERVAL_MS then (pr.1, ⟨[], pr.2⟩)
    else
      let fr := do_transcribe bf pr.1
      (fr.1, ⟨fr.2, ""⟩)

/-- `STTEngine.start`: from Idle, reset all tracking and move to Recording;
otherwise a strict no-op returning the current state's name. -/
def start (e : Engine) : Engine × String :=
  if e.state = State.idle then
    ({ e with
        pcm_buffer := []
        time_offset_sec := 0
        current_speaker := 1
        last_segment_end := 0
        locked_language := none
        last_partial_emit_sec := 0
        state := State.recording }, "recording")
  else (e, e.state.value)

/-- `STTEngine.pause`: Recording → Paused, otherwise a strict no-op. -/
def pause (e : Engine) : Engine × String :=
  if e.state = State.recording then
    ({ e with state := State.paused }, "paused")
  else (e, e.state.value)

/-- `STTEngine.resume`: Paused → Recording, otherwise a strict no-op. -/
def resume (e : Engine) : Engine × String :=
  if e.state = State.paused then
    ({ e with state := State.recording }, "recording")
  else (e, e.state.value)

/-- `STTEngine.stop`: from Recording or Paused, pass through the transient
Stopped state, synchronously flush the remaining buffer through one last
recognition pass, end Idle and return the literal string "stopped" with the
flushed segments; otherwise a strict no-op returning `(state, [])`. -/
def stop (bf : Oracle) (e : Engine) : Engine × String × List Seg :=
  if e.state = State.recording ∨ e.state = State.paused then
    let r := transcribe_remaining bf { e with state := State.stopped }
    ({ r.1 with state := State.idle }, ("stopped", r.2))
  else (e, (e.state.value, []))

/-- Modelled from the spec: `get_and_clear_error` (spec section 4.3) — the
streaming recognizer's deferred error channel, read and cleared by the worker
after every feed; its implementation is not under src/. -/
def get_and_clear_error (e : Engine) : Option String × Engine :=
  (e.deferred_error, { e with deferred_error := none })

/-- The structured acknowledgement returned by `handle_audio_chunk` in
src/app.py: `ok` plus the failure `reason` (empty string on success). -/
structure Ack where
  ok : Bool
  reason : String
deriving DecidableEq, Repr

/-- `QUEUE_CAPACITY`: the fixed `maxsize=200` of `audio_queue` in src/app.py. -/
def QUEUE_CAPACITY : Nat := 200

/-- The pipeline-level mutable state of src/app.py that the claims concern:
the monotone session counter, the bounded queue of tagged chunks, the drop and
chunk counters, and the engine.  `fed` is a ghost log recording every chunk
(with its session tag) that the worker has passed to `feed_audio`. -/
structure App where
  sid : Nat
  queue : List (Nat × List Nat)
  dropped : Nat
  chunk_count : Nat
  engine : Engine
  fed : List (Nat × List Nat)
deriving Repr

/-- Initial pipeline state (module top level of src/app.py). -/
def App.init : App :=
  { sid := 0, queue := [], dropped := 0, chunk_count := 0
    engine := Engine.init, fed := [] }

/-- `handle_audio_chunk` (src/app.py): an empty chunk is logged and rejected
with reason "empty" before reaching the queue; an undersized chunk (< 16
bytes) is merely logged; the chunk is then enqueued with the current session
id via `put_nowait`, which fails exactly when the queue already holds
`QUEUE_CAPACITY` items — in that case the chunk is dropped, the dropped
counter is incremented and the caller gets reason "queue_full" without ever
blocking. -/
def handle_audio_chunk (chunk : List Nat) (a : App) : App × Ack :=
  if chunk.length = 0 then (a, ⟨false, "empty"⟩)
  else
    let a1 := { a with chunk_count := a.chunk_count + 1 }
    if QUEUE_CAPACITY ≤ a1.queue.length then
      ({ a1 with dropped := a1.dropped + 1 }, ⟨false, "queue_full"⟩)
    else
      ({ a1 with queue := a1.queue ++ [(a1.sid, chunk)] }, ⟨true, ""⟩)

/-- `handle_start` (src/app.py `start_recording`), restricted to the
claim-relevant effects: increment the session id, drain the whole queue
unconditionally, then start the engine. -/
def handle_start (a : App) : App :=
  let a1 := { a with sid := a.sid + 1, queue := [] }
  { a1 with engine := (start a1.engine).1 }

/-- `handle_stop` (src/app.py `stop_recording`): increment the session id,
drain the whole queue unconditionally, then stop the engine; returns the
state string and the flushed final segments. -/
def handle_stop (bf : Oracle) (a : App) : App × String × List Seg :=
  let a1 := { a with sid := a.sid + 1, queue := [] }
  let r := stop bf a1.engine
  ({ a1 with engine := r.1 }, r.2)

/-- One iteration of `_audio_worker` (src/app.py): dequeue (an empty queue
just times out and loops), discard the chunk if its tag is not the current
session id or the engine is not recording, otherwise feed it and run the
deferred-error check.  Every branch returns normally to the next iteration. -/
def worker_step (bp bf : Oracle) (a : App) : App :=
  match a.queue with
  | [] => a
  | (tag, chunk) :: rest =>
    let a1 := { a with queue := rest }
    if tag ≠ a1.sid then a1
    else if a1.engine.state ≠ State.recording then a1
    else
      let fr := feed_audio bp bf chunk a1.engine
      let er := get_and_clear_error fr.1
      { a1 with engine := er.2, fed := a1.fed ++ [(tag, chunk)] }

/-- The externally triggered events of the pipeline. -/
inductive Ev where
  | enq : List Nat → Ev
  | startEv : Ev
  | stopEv : Oracle → Ev
  | work : Oracle → Oracle → Ev

/-- Apply one event to the pipeline state. -/
def step (a : App) : Ev → App
  | .enq c => (handle_audio_chunk c a).1
  | .startEv => handle_start a
  | .stopEv bf => (handle_stop bf a).1
  | .work bp bf => worker_step bp bf a

/-- Run a trace of events from the initial pipeline state. -/
def run (es : List Ev) : App := es.foldl step App.init

/-- Number of entries of `l` tagged with session `N`. -/
def countTagged (N : Nat) (l : List (Nat × List Nat)) : Nat :=
  (l.filter fun p => p.1 == N).length

/-- The recording-session control calls of the state machine. -/
inductive Op where
  | startOp
  | pauseOp
  | resumeOp
  | stopOp
deriving DecidableEq, Repr

/-- Dispatch one control call on the engine, returning the new engine and the
state string handed back to the caller. -/
def apply_op : Op → Oracle → Engine → Engine × String
  | .startOp, _, e => start e
  | .pauseOp, _, e => pause e
  | .resumeOp, _, e => resume e
  | .stopOp, bf, e => ((stop bf e).1, (stop bf e).2.1)

/-- The legal transitions of spec section 3: Idle→Recording (start),
Recording→Paused (pause), Paused→Recording (resume),
{Recording,Paused}→Stopped→Idle (stop). -/
def legal_b : State → Op → Bool
  | .idle, .startOp => true
  | .recording, .pauseOp => true
  | .paused, .resumeOp => true
  | .recording, .stopOp => true
  | .paused, .stopOp => true
  | _, _ => false

/-- Destination state of each legal call (stop lands in Idle after the
transient Stopped). -/
def next_state : Op → State
  | .startOp => State.recording
  | .pauseOp => State.paused
  | .resumeOp => State.recording
  | .stopOp => State.idle

/-- The literal string each legal call returns ("stopped" for stop even though
the session is already Idle when the call returns). -/
def ret_string : Op → String
  | .startOp => "recording"
  | .pauseOp => "paused"
  | .resumeOp => "recording"
  | .stopOp => "stopped"

/-- Run a sequence of control calls from the freshly constructed engine. -/
def run_ops (ops : List (Op × Oracle)) : Engine :=
  ops.foldl (fun e p => (apply_op p.1 p.2 e).1) Engine.init

/-- Python whitespace as stripped by `str.strip()` and matched by `\s` in the
relevant ASCII range (the Unicode extras cannot survive the safe-char filter,
so this set is exact for the composition in `sanitize_meeting_name`). -/
def is_py_space (c : Char) : Bool :=
  c == ' ' || c == '\t' || c == '\n' || c == '\x0d' || c == '\x0b' || c == '\x0c'

/-- The character class kept by `_SAFE_CHARS_RE` of src/utils.py
(`[^0-9A-Za-z㐀-鿿 _.-]` is removed). -/
def is_safe_keep (c : Char) : Bool :=
  ('0' ≤ c && c ≤ '9') || ('A' ≤ c && c ≤ 'Z') || ('a' ≤ c && c ≤ 'z') ||
  (0x3400 ≤ c.toNat && c.toNat ≤ 0x9fff) ||
  c == ' ' || c == '_' || c == '.' || c == '-'

/-- Characters that may appear in a sanitized (non-fallback) result: the safe
class minus the space, which the whitespace pass replaces. -/
def is_allowed_result_char (c : Char) : Bool :=
  ('0' ≤ c && c ≤ '9') || ('A' ≤ c && c ≤ 'Z') || ('a' ≤ c && c ≤ 'z') ||
  (0x3400 ≤ c.toNat && c.toNat ≤ 0x9fff) ||
  c == '_' || c == '.' || c == '-'

/-- Drop characters satisfying `p` from both ends (Python `str.strip`). -/
def strip_chars (p : Char → Bool) (l : List Char) : List Char :=
  ((l.dropWhile p).reverse.dropWhile p).reverse

/-- `re.sub(r"\s+", "_", name)`: each maximal whitespace run becomes one
underscore.  The flag records whether we are inside a run. -/
def collapse_ws : Bool → List Char → List Char
  | _, [] => []
  | inRun, c :: rest =>
    if is_py_space c then
      if inRun then collapse_ws true rest else '_' :: collapse_ws true rest
    else c :: collapse_ws false rest

/-- `sanitize_meeting_name` (src/utils.py), on character lists: strip, fall
back when empty, replace `os.sep` (\x2f on the posix deployment), '/' and
'\\' with '_', drop unsafe characters, collapse whitespace runs to '_', strip
"._- " from the ends, fall back when nothing remains, truncate to 60. -/
def sanitize_meeting_name (name fallback : List Char) : List Char :=
  let n0 := strip_chars is_py_space name
  if n0 = [] then fallback
  else
    let n1 := n0.map fun c => if c == '/' || c == '\\' then '_' else c
    let n2 := n1.filter is_safe_keep
    let n3 := collapse_ws false n2
    let n4 := strip_chars (fun c => c == '.' || c == '_' || c == '-' || c == ' ') n3
    if n4 = [] then fallback
    else n4.take 60

/-- Refinement comparison for claim C6 — the behaviour the claim describes in
the spec's words: truncate an odd-length byte buffer to the nearest whole
sample and append the remaining whole samples (the decoder below already drops
a trailing odd byte). -/
def append_pcm_chunk_truncating (chunk : List Nat) (e : Engine) : Engine :=
  { e with pcm_buffer := e.pcm_buffer ++ bytes_to_samples chunk }

/-- Backend oracle fixture: the backend raises on every call. -/
def bp_err : Oracle := fun _ => Except.error "boom"

/-- Backend detection-info fixture: English detected. -/
def info_en : BInfo := ⟨"en"⟩

/-- Backend oracle fixture: one raw segment spanning buffer times 0..1 with
text "hi", language detected as English. -/
def bf_hi : Oracle := fun _ => Except.ok ([⟨0, 1, "hi"⟩], info_en)

/-- Engine fixture: recording with exactly `TRANSCRIBE_INTERVAL_MS` worth of
audio buffered (80000 samples at 16 kHz) and the partial cooldown saturated. -/
def e80 : Engine :=
  { Engine.init with
      state := State.recording
      pcm_buffer := List.replicate 80000 (0 : ℚ)
      last_partial_emit_sec := 5 }

/-- Engine fixture: paused with a small nonempty buffer. -/
def e_paused : Engine :=
  { Engine.init with state := State.paused, pcm_buffer := [0] }

/-- Engine fixture: recording, no locked language, nonempty buffer. -/
def e_rec1 : Engine :=
  { Engine.init with state := State.recording, pcm_buffer := [0] }

/-- App fixture: a queue already holding `QUEUE_CAPACITY` tagged chunks. -/
def app_full : App :=
  { App.init with queue := List.replicate QUEUE_CAPACITY (0, [0, 0]) }

/-! ## Helper lemmas -/

/-- Appending a chunk never touches the state, the time offset, the lock or
the tracking fields — only the buffer. -/
theorem append_pcm_chunk_fields (chunk : List Nat) (e : Engine) :
    (append_pcm_chunk chunk e).state = e.state ∧
    (append_pcm_chunk chunk e).time_offset_sec = e.time_offset_sec ∧
    (append_pcm_chunk chunk e).locked_language = e.locked_language ∧
    (append_pcm_chunk chunk e).current_speaker = e.current_speaker ∧
    (append_pcm_chunk chunk e).last_segment_end = e.last_segment_end := by
  unfold append_pcm_chunk
  split
  · exact ⟨rfl, rfl, rfl, rfl, rfl⟩
  · split
    · exact ⟨rfl, rfl, rfl, rfl, rfl⟩
    · exact ⟨rfl, rfl, rfl, rfl, rfl⟩

/-- The partial pass never touches the main buffer, the time offset, the
state or the speaker/segment tracking. -/
theorem maybe_partial_fields (bp : Oracle) (e : Engine) :
    (maybe_partial_text bp e).1.pcm_buffer = e.pcm_buffer ∧
    (maybe_partial_text bp e).1.time_offset_sec = e.time_offset_sec ∧
    (maybe_partial_text bp e).1.state = e.state ∧
    (maybe_partial_text bp e).1.current_speaker = e.current_speaker ∧
    (maybe_partial_text bp e).1.last_segment_end = e.last_segment_end := by
  simp only [maybe_partial_text]
  by_cases hc : (e.pcm_buffer.length : ℚ) / (SAMPLE_RATE : ℚ) - e.last_partial_emit_sec <
      (PARTIAL_INTERVAL_MS : ℚ) / 1000
  · rw [if_pos hc]
    exact ⟨rfl, rfl, rfl, rfl, rfl⟩
  · rw [if_neg hc]
    cases h : bp e.locked_language with
    | error m => exact ⟨rfl, rfl, rfl, rfl, rfl⟩
    | ok v =>
      obtain ⟨bsegs, info⟩ := v
      exact ⟨rfl, rfl, rfl, rfl, rfl⟩

/-- Every segment emitted by the per-segment loop comes from a raw backend
segment, with both offsets shifted by exactly `off` and the backend-reported
language attached. -/
theorem process_segs_mem (off : ℚ) (lang : String) :
    ∀ (bsegs : List BSeg) (spk : Nat) (lastEnd : ℚ),
      ∀ s ∈ (process_segs off lang spk lastEnd bsegs).1, ∃ bs ∈ bsegs,
        s.text = bs.text.trim ∧ s.start = bs.bstart + off ∧
        s.stop = bs.bend + off ∧ s.language = lang := by
  intro bsegs
  induction bsegs with
  | nil => intro spk lastEnd s hs; simp [process_segs] at hs
  | cons bs rest ih =>
    intro spk lastEnd s hs
    simp only [process_segs] at hs
    split at hs
    · obtain ⟨b, hb, h⟩ := ih _ _ s hs
      exact ⟨b, List.mem_cons_of_mem _ hb, h⟩
    · split at hs
      · obtain ⟨b, hb, h⟩ := ih _ _ s hs
        exact ⟨b, List.mem_cons_of_mem _ hb, h⟩
      · rcases List.mem_cons.1 hs with h | h
        · subst h
          exact ⟨bs, List.mem_cons_self _ _, rfl, rfl, rfl, rfl⟩
        · obtain ⟨b, hb, hh⟩ := ih _ _ s h
          exact ⟨b, List.mem_cons_of_mem _ hb, hh⟩

/-- Behaviour of a successful full pass on a nonempty buffer: buffer cleared,
time offset advanced by the buffer's duration, segments produced by the
per-segment loop, and the locking rule applied. -/
theorem do_transcribe_spec (bf : Oracle) (e : Engine) (bsegs : List BSeg) (info : BInfo)
    (hne : e.pcm_buffer ≠ []) (hbf : bf e.locked_language = Except.ok (bsegs, info)) :
    (do_transcribe bf e).1.pcm_buffer = [] ∧
    (do_transcribe bf e).1.time_offset_sec =
      e.time_offset_sec + (e.pcm_buffer.length : ℚ) / (SAMPLE_RATE : ℚ) ∧
    (do_transcribe bf e).2 =
      (process_segs e.time_offset_sec info.language e.current_speaker e.last_segment_end bsegs).1 ∧
    (do_transcribe bf e).1.locked_language =
      (if e.locked_language = none ∧ info.language ≠ "" ∧ info.language ≠ "ko" then
        some "zh" else e.locked_language) := by
  unfold do_transcribe
  rw [if_neg hne, hbf]
  exact ⟨rfl, rfl, rfl, rfl⟩

/-- A full pass against an erroring backend is a no-op producing no segments
(the `try/except` in `_do_transcribe` swallows the exception). -/
theorem do_transcribe_err (e : Engine) (msg : String) :
    do_transcribe (fun _ => Except.error msg) e = (e, []) := by
  unfold do_transcribe
  split
  · rfl
  · rfl

/-- One worker iteration always consumes exactly the head of the queue, never
changes the session id, and grows the fed log by at most the head chunk tagged
with the current session id. -/
theorem worker_step_frame (bp bf : Oracle) (a : App) :
    (worker_step bp bf a).queue = a.queue.tail ∧
    (worker_step bp bf a).sid = a.sid ∧
    ((worker_step bp bf a).fed = a.fed ∨
      ∃ c, (worker_step bp bf a).fed = a.fed ++ [(a.sid, c)]) := by
  unfold worker_step
  cases hq : a.queue with
  | nil => exact ⟨hq, rfl, Or.inl rfl⟩
  | cons hd tl =>
    obtain ⟨tag, chunk⟩ := hd
    by_cases h1 : tag = a.sid
    · by_cases h2 : a.engine.state = State.recording
      · refine ⟨?_, ?_, Or.inr ⟨chunk, ?_⟩⟩ <;> simp [h1, h2]
      · refine ⟨?_, ?_, Or.inl ?_⟩ <;> simp [h1, h2]
    · refine ⟨?_, ?_, Or.inl ?_⟩ <;> simp [h1]

/-- The inbound chunk handler never touches the session id or the fed log. -/
theorem handle_audio_chunk_frame (chunk : List Nat) (a : App) :
    (handle_audio_chunk chunk a).1.sid = a.sid ∧
    (handle_audio_chunk chunk a).1.fed = a.fed := by
  by_cases h1 : chunk.length = 0
  · simp [handle_audio_chunk, h1]
  · by_cases h2 : QUEUE_CAPACITY ≤ a.queue.length
    · simp [handle_audio_chunk, h1, h2]
    · simp [handle_audio_chunk, h1, h2]

/-! ## Claim theorems -/

/-- Claim C3: no malformed chunk or recognition-backend failure terminates the
ingestion worker loop.  A backend exception during a recognition pass is
caught at the recognizer boundary (`_do_transcribe`'s `try/except`) and
degrades to zero segments with nothing mutated; `feed_audio` therefore reports
no final segments on a backend error; and every worker iteration — whatever
the chunk, backend outcome or engine state — simply consumes the head of the
queue and continues (including the per-iteration deferred-error check, which
clears the channel and never raises). -/
theorem C3_worker_resilience :
    (∀ (e : Engine) (msg : String), do_transcribe (fun _ => Except.error msg) e = (e, [])) ∧
    (∀ (e : Engine) (bp : Oracle) (msg : String) (chunk : List Nat),
      (feed_audio bp (fun _ => Except.error msg) chunk e).2.final = []) ∧
    (∀ (a : App) (bp bf : Oracle),
      (worker_step bp bf a).queue = a.queue.tail ∧ (worker_step bp bf a).sid = a.sid) ∧
    (∀ e : Engine, (get_and_clear_error e).2.deferred_error = none) := by
  refine ⟨do_transcribe_err, ?_, ?_, fun e => rfl⟩
  · intro e bp msg chunk
    unfold feed_audio
    split
    · rfl
    · by_cases hd : duration_ms (append_pcm_chunk chunk e) < TRANSCRIBE_INTERVAL_MS
      · simp only [if_pos hd]
      · simp only [if_neg hd]
        by_cases hp : PARTIAL_INTERVAL_MS ≤ duration_ms (append_pcm_chunk chunk e)
        · simp only [if_pos hp, do_transcribe_err]
        · simp only [if_neg hp, do_transcribe_err]
  · intro a bp bf
    exact ⟨(worker_step_frame bp bf a).1, (worker_step_frame bp bf a).2.1⟩

/-- Claim C6 counterexample: the claim says an odd-length byte buffer is
truncated to the nearest whole sample and the remaining whole samples are
appended; on the 3-byte chunk [0, 64, 7] fed to a fresh engine the code
appends nothing at all (the `np.frombuffer` parse error is caught and the
whole chunk is discarded), whereas the truncating behaviour described by the
claim would append the one whole sample. -/
theorem C6_counterexample :
    (append_pcm_chunk [0, 64, 7] Engine.init).pcm_buffer = [] ∧
    (append_pcm_chunk_truncating [0, 64, 7] Engine.init).pcm_buffer =
      [(toInt16 0 64 : ℚ) / 32768] ∧
    append_pcm_chunk [0, 64, 7] Engine.init ≠ append_pcm_chunk_truncating [0, 64, 7] Engine.init := by
  refine ⟨rfl, rfl, ?_⟩
  intro h
  have := congrArg Engine.pcm_buffer h
  simp [append_pcm_chunk, append_pcm_chunk_truncating, bytes_to_samples] at this

/-- Claim C6 (amended): a chunk whose byte length is odd is discarded in its
entirety — `_append_pcm_chunk` catches the parse error and leaves the engine
unchanged — rather than being truncated to the nearest whole sample. -/
theorem C6_odd_chunk_discarded (chunk : List Nat) (e : Engine)
    (hodd : chunk.length % 2 = 1) :
    append_pcm_chunk chunk e = e := by
  unfold append_pcm_chunk
  rw [if_pos (by omega)]

/-- Witness for C6: the concrete odd chunk [1, 2, 3] is discarded. -/
theorem C6_odd_chunk_discarded_witness :
    append_pcm_chunk [1, 2, 3] Engine.init = Engine.init :=
  C6_odd_chunk_discarded [1, 2, 3] Engine.init (by decide)

/-- Claim C9 counterexample: on the first confident pass the engine does not
lock the detected language — with the backend detecting "en" on a nonempty
buffer, the lock is set to the constant "zh", not to "en". -/
theorem C9_counterexample :
    info_en.language = "en" ∧
    (do_transcribe bf_hi e_rec1).1.locked_language = some "zh" ∧
    (do_transcribe bf_hi e_rec1).1.locked_language ≠ some info_en.language := by
  refine ⟨rfl, rfl, ?_⟩
  intro h
  rw [show (do_transcribe bf_hi e_rec1).1.locked_language = some "zh" from rfl] at h
  simp [info_en] at h

/-- Claim C9 (amended): on the first full pass whose language detection is
truthy and differs from the excluded auto-detect value "ko", the engine locks
the language to the constant "zh" (regardless of which language was detected)
and subsequent passes force the locked value; a detected language equal to
"ko" (or an empty detection) defers the lock; once locked, the lock persists,
and a pass of a locked engine depends on the backend only through its response
at the locked language. -/
theorem C9_language_lock :
    (∀ (e : Engine) (bf : Oracle) (bsegs : List BSeg) (info : BInfo),
      e.pcm_buffer ≠ [] → e.locked_language = none →
      bf none = Except.ok (bsegs, info) → info.language ≠ "" → info.language ≠ "ko" →
      (do_transcribe bf e).1.locked_language = some "zh") ∧
    (∀ (e : Engine) (bf : Oracle) (bsegs : List BSeg) (info : BInfo),
      e.locked_language = none → bf none = Except.ok (bsegs, info) →
      (info.language = "ko" ∨ info.language = "") →
      (do_transcribe bf e).1.locked_language = none) ∧
    (∀ (e : Engine) (bf : Oracle) (l : String), e.locked_language = some l →
      (do_transcribe bf e).1.locked_language = some l) ∧
    (∀ (e : Engine) (bf bf' : Oracle) (l : String), e.locked_language = some l →
      bf (some l) = bf' (some l) → do_transcribe bf e = do_transcribe bf' e) := by
  refine ⟨?_, ?_, ?_, ?_⟩
  · intro e bf bsegs info hne hlock hbf hl1 hl2
    have h := (do_transcribe_spec bf e bsegs info hne (by rw [hlock]; exact hbf)).2.2.2
    rw [h, if_pos ⟨hlock, hl1, hl2⟩]
  · intro e bf bsegs info hlock hbf hko
    by_cases hne : e.pcm_buffer = []
    · unfold do_transcribe
      rw [if_pos hne]
      exact hlock
    · have h := (do_transcribe_spec bf e bsegs info hne (by rw [hlock]; exact hbf)).2.2.2
      rw [h, if_neg (by rcases hko with hko | hko <;> simp [hko]), hlock]
  · intro e bf l hlock
    unfold do_transcribe
    by_cases hne : e.pcm_buffer = []
    · rw [if_pos hne]; exact hlock
    · rw [if_neg hne]
      cases h : bf e.locked_language with
      | error m => exact hlock
      | ok v =>
        obtain ⟨bsegs, info⟩ := v
        simp [hlock]
  · intro e bf bf' l hlock heq
    unfold do_transcribe
    by_cases hne : e.pcm_buffer = []
    · simp only [if_pos hne]
    · simp only [if_neg hne, hlock, heq]

/-- Witness for C9 (amended): on the fixture with detection "en" the first
conjunct yields the lock at the constant "zh". -/
theorem C9_language_lock_witness :
    (do_transcribe bf_hi e_rec1).1.locked_language = some "zh" :=
  C9_language_lock.1 e_rec1 bf_hi [⟨0, 1, "hi"⟩] info_en (by decide) rfl rfl
    (by decide) (by decide)

/-- Each control call either performs its legal transition or returns with the
engine unchanged. -/
theorem apply_op_cases (op : Op) (bf : Oracle) (e : Engine) :
    (legal_b e.state op = true ∧
     (apply_op op bf e).1.state = next_state op ∧
     (apply_op op bf e).2 = ret_string op) ∨
    (legal_b e.state op = false ∧ apply_op op bf e = (e, e.state.value)) := by
  cases op <;> cases hst : e.state <;>
    simp [apply_op, start, pause, resume, stop, legal_b, next_state, ret_string, hst, State.value]

/-- Every legal destination state is a defined, non-transient one. -/
theorem next_state_defined (op : Op) :
    next_state op = State.idle ∨ next_state op = State.recording ∨
    next_state op = State.paused := by
  cases op <;> simp [next_state]

/-- Folding control calls preserves membership of the state in the defined
non-transient set. -/
theorem run_ops_fold_defined (ops : List (Op × Oracle)) :
    ∀ e : Engine,
      (e.state = State.idle ∨ e.state = State.recording ∨ e.state = State.paused) →
      ((ops.foldl (fun e p => (apply_op p.1 p.2 e).1) e).state = State.idle ∨
       (ops.foldl (fun e p => (apply_op p.1 p.2 e).1) e).state = State.recording ∨
       (ops.foldl (fun e p => (apply_op p.1 p.2 e).1) e).state = State.paused) := by
  induction ops with
  | nil => intro e he; exact he
  | cons p rest ih =>
    intro e he
    have hstep : (apply_op p.1 p.2 e).1.state = State.idle ∨
        (apply_op p.1 p.2 e).1.state = State.recording ∨
        (apply_op p.1 p.2 e).1.state = State.paused := by
      rcases apply_op_cases p.1 p.2 e with ⟨_, h, _⟩ | ⟨_, h⟩
      · rw [h]; exact next_state_defined p.1
      · rw [show (apply_op p.1 p.2 e).1 = e from congrArg Prod.fst h]; exact he
    exact ih _ hstep

/-- Claim C2: the recording state machine only moves along the legal
transitions Idle→Recording (start), Recording→Paused (pause),
Paused→Recording (resume) and {Recording,Paused}→(transient Stopped)→Idle
(stop); every other call is a strict no-op that leaves the engine unchanged
and returns the current state's name (never an error); and along any call
sequence from the fresh engine the state stays in the defined non-transient
set {Idle, Recording, Paused}. -/
theorem C2_state_machine :
    (∀ (op : Op) (bf : Oracle) (e : Engine),
      (legal_b e.state op = true ∧
       (apply_op op bf e).1.state = next_state op ∧
       (apply_op op bf e).2 = ret_string op) ∨
      (legal_b e.state op = false ∧ apply_op op bf e = (e, e.state.value))) ∧
    (∀ ops : List (Op × Oracle),
      (run_ops ops).state = State.idle ∨ (run_ops ops).state = State.recording ∨
      (run_ops ops).state = State.paused) :=
  ⟨apply_op_cases, fun ops =>
    run_ops_fold_defined ops Engine.init (Or.inl rfl)⟩

/-- Claim C4: `stop` from Recording or Paused returns the literal string
"stopped", leaves the session Idle by the time the call returns, returns no
segments when nothing is buffered, and — when audio remains buffered and the
backend answers — flushes it through one last full recognition pass: the
buffer is empty afterwards and every returned segment derives from a backend
segment of that pass with offsets shifted by the running time offset.  The
hypothesis covers the Paused case, so stop-while-Paused flushes too. -/
theorem C4_stop_flush (e : Engine) (bf : Oracle)
    (hst : e.state = State.recording ∨ e.state = State.paused) :
    (stop bf e).2.1 = "stopped" ∧
    (stop bf e).1.state = State.idle ∧
    (e.pcm_buffer = [] → (stop bf e).2.2 = []) ∧
    (∀ (bsegs : List BSeg) (info : BInfo), e.pcm_buffer ≠ [] →
      bf e.locked_language = Except.ok (bsegs, info) →
      (stop bf e).1.pcm_buffer = [] ∧
      ∀ s ∈ (stop bf e).2.2, ∃ bs ∈ bsegs,
        s.text = bs.text.trim ∧ s.start = bs.bstart + e.time_offset_sec ∧
        s.stop = bs.bend + e.time_offset_sec ∧ s.language = info.language) := by
  unfold stop
  rw [if_pos hst]
  refine ⟨rfl, rfl, ?_, ?_⟩
  · intro hbuf
    show (transcribe_remaining bf { e with state := State.stopped }).2 = []
    unfold transcribe_remaining
    rw [if_pos (show ({ e with state := State.stopped } : Engine).pcm_buffer = [] from hbuf)]
  · intro bsegs info hne hbf
    have hne1 : ({ e with state := State.stopped } : Engine).pcm_buffer ≠ [] := hne
    have hbf1 : bf ({ e with state := State.stopped } : Engine).locked_language =
        Except.ok (bsegs, info) := hbf
    have hs := do_transcribe_spec bf { e with state := State.stopped } bsegs info hne1 hbf1
    constructor
    · show (transcribe_remaining bf { e with state := State.stopped }).1.pcm_buffer = []
      unfold transcribe_remaining
      rw [if_neg hne1]
      exact hs.1
    · intro s hsmem
      have hsmem' : s ∈ (transcribe_remaining bf { e with state := State.stopped }).2 := hsmem
      unfold transcribe_remaining at hsmem'
      rw [if_neg hne1, hs.2.2.1] at hsmem'
      exact process_segs_mem _ info.language bsegs _ _ s hsmem'

/-- Witness for C4: stopping the paused fixture with a nonempty buffer and a
working backend returns "stopped", lands in Idle and clears the buffer. -/
theorem C4_stop_flush_witness :
    (stop bf_hi e_paused).2.1 = "stopped" ∧
    (stop bf_hi e_paused).1.state = State.idle ∧
    (stop bf_hi e_paused).1.pcm_buffer = [] :=
  ⟨(C4_stop_flush e_paused bf_hi (Or.inr rfl)).1,
   (C4_stop_flush e_paused bf_hi (Or.inr rfl)).2.1,
   ((C4_stop_flush e_paused bf_hi (Or.inr rfl)).2.2.2 [⟨0, 1, "hi"⟩] info_en
     (by decide) rfl).1⟩

/-- Claim C5: submitting a nonempty chunk while the bounded queue (capacity
200) is already full does not block (the handler is a total function built on
`put_nowait`), drops the chunk (queue unchanged), increments the dropped
counter, and returns the structured acknowledgement with `ok = false` and
reason "queue_full", distinct from the empty-chunk failure. -/
theorem C5_queue_full (a : App) (chunk : List Nat)
    (hfull : QUEUE_CAPACITY ≤ a.queue.length) (hne : chunk ≠ []) :
    (handle_audio_chunk chunk a).2 = ⟨false, "queue_full"⟩ ∧
    (handle_audio_chunk chunk a).1.queue = a.queue ∧
    (handle_audio_chunk chunk a).1.dropped = a.dropped + 1 ∧
    (handle_audio_chunk chunk a).2.reason ≠ "empty" := by
  have hlen : ¬ chunk.length = 0 := by simpa using hne
  refine ⟨?_, ?_, ?_, ?_⟩ <;>
    simp [handle_audio_chunk, hlen, hfull]

/-- Witness for C5: one more 2-byte chunk against the full-queue fixture is
dropped with reason "queue_full" and bumps the dropped counter. -/
theorem C5_queue_full_witness :
    (handle_audio_chunk [1, 2] app_full).2 = ⟨false, "queue_full"⟩ ∧
    (handle_audio_chunk [1, 2] app_full).1.dropped = app_full.dropped + 1 :=
  ⟨(C5_queue_full app_full [1, 2]
      (by rw [show app_full.queue = List.replicate QUEUE_CAPACITY (0, [0, 0]) from rfl,
            List.length_replicate]) (by decide)).1,
   (C5_queue_full app_full [1, 2]
      (by rw [show app_full.queue = List.replicate QUEUE_CAPACITY (0, [0, 0]) from rfl,
            List.length_replicate]) (by decide)).2.2.1⟩

/-- Claim C7 counterexample: the claim says every empty or undersized chunk is
rejected and never enqueued; the 4-byte chunk [1, 2, 3, 4] is undersized
(< 16 bytes) yet the handler accepts it (`ok = true`) and enqueues it. -/
theorem C7_counterexample :
    ([1, 2, 3, 4] : List Nat) ≠ [] ∧
    ([1, 2, 3, 4] : List Nat).length < 16 ∧
    (handle_audio_chunk [1, 2, 3, 4] App.init).2.ok = true ∧
    (handle_audio_chunk [1, 2, 3, 4] App.init).1.queue = [(0, [1, 2, 3, 4])] := by
  refine ⟨by decide, by decide, rfl, rfl⟩

/-- Claim C7 (amended): only empty chunks are rejected before reaching the
queue — the handler returns `ok = false` with reason "empty" and changes
nothing; an undersized chunk (nonempty, < 16 bytes) is merely logged and is
accepted and enqueued like any other chunk when the queue has room. -/
theorem C7_empty_rejected_undersized_accepted :
    (∀ (a : App) (chunk : List Nat), chunk = [] →
      handle_audio_chunk chunk a = (a, ⟨false, "empty"⟩)) ∧
    (∀ (a : App) (chunk : List Nat), chunk ≠ [] → chunk.length < 16 →
      a.queue.length < QUEUE_CAPACITY →
      (handle_audio_chunk chunk a).2 = ⟨true, ""⟩ ∧
      (handle_audio_chunk chunk a).1.queue = a.queue ++ [(a.sid, chunk)]) := by
  constructor
  · intro a chunk hc
    subst hc
    rfl
  · intro a chunk hne hsize hcap
    have hlen : ¬ chunk.length = 0 := by simpa using hne
    have hq : ¬ QUEUE_CAPACITY ≤ a.queue.length := by omega
    constructor <;> simp [handle_audio_chunk, hlen, hq]

/-- Witness for C7 (amended): the empty chunk is rejected with reason "empty"
and the undersized chunk [1] is accepted and enqueued on a fresh app. -/
theorem C7_empty_rejected_undersized_accepted_witness :
    handle_audio_chunk [] App.init = (App.init, ⟨false, "empty"⟩) ∧
    (handle_audio_chunk [1] App.init).2 = ⟨true, ""⟩ :=
  ⟨C7_empty_rejected_undersized_accepted.1 App.init [] rfl,
   (C7_empty_rejected_undersized_accepted.2 App.init [1] (by decide) (by decide)
     (by decide)).1⟩

/-- When the buffer has reached the full re-transcription interval,
`feed_audio` runs the partial pass and then the full pass over the entire
buffer, returning the full pass's segments with an empty partial. -/
theorem feed_audio_full (bp bf : Oracle) (chunk : List Nat) (e : Engine)
    (hst : e.state = State.recording)
    (hdur : TRANSCRIBE_INTERVAL_MS ≤ duration_ms (append_pcm_chunk chunk e)) :
    feed_audio bp bf chunk e =
      ((do_transcribe bf (maybe_partial_text bp (append_pcm_chunk chunk e)).1).1,
       ⟨(do_transcribe bf (maybe_partial_text bp (append_pcm_chunk chunk e)).1).2, ""⟩) := by
  have hnst : ¬ e.state ≠ State.recording := by simp [hst]
  have hp : PARTIAL_INTERVAL_MS ≤ duration_ms (append_pcm_chunk chunk e) :=
    le_trans (by decide) hdur
  have hd : ¬ duration_ms (append_pcm_chunk chunk e) < TRANSCRIBE_INTERVAL_MS := by omega
  simp only [feed_audio]
  rw [if_neg hnst, if_pos hp, if_neg hd]

/-- Claim C8: whenever the accumulated buffer duration reaches the full
re-transcription interval (5000 ms), `feed_audio` runs a full pass over the
entire buffer: every returned final segment's offsets equal the
backend-reported per-buffer times plus the running time offset held before the
pass, the time offset afterwards has advanced by exactly the consumed buffer's
duration, and the buffer is empty — so consecutive passes' timestamps are
continuous cumulative stream time with no double counting and no gap. -/
theorem C8_full_pass (e : Engine) (chunk : List Nat) (bp bf : Oracle)
    (bsegs : List BSeg) (info : BInfo)
    (hst : e.state = State.recording)
    (hbf : ∀ l, bf l = Except.ok (bsegs, info))
    (hdur : TRANSCRIBE_INTERVAL_MS ≤ duration_ms (append_pcm_chunk chunk e)) :
    (∀ s ∈ (feed_audio bp bf chunk e).2.final, ∃ bs ∈ bsegs,
      s.start = bs.bstart + e.time_offset_sec ∧ s.stop = bs.bend + e.time_offset_sec) ∧
    (feed_audio bp bf chunk e).1.time_offset_sec =
      e.time_offset_sec + ((append_pcm_chunk chunk e).pcm_buffer.length : ℚ) / (SAMPLE_RATE : ℚ) ∧
    (feed_audio bp bf chunk e).1.pcm_buffer = [] := by
  have hap := append_pcm_chunk_fields chunk e
  have hpr := maybe_partial_fields bp (append_pcm_chunk chunk e)
  have hne2 : (maybe_partial_text bp (append_pcm_chunk chunk e)).1.pcm_buffer ≠ [] := by
    rw [hpr.1]
    intro h0
    rw [duration_ms, h0] at hdur
    simp [TRANSCRIBE_INTERVAL_MS, SAMPLE_RATE] at hdur
  have hs := do_transcribe_spec bf (maybe_partial_text bp (append_pcm_chunk chunk e)).1
    bsegs info hne2 (hbf _)
  rw [feed_audio_full bp bf chunk e hst hdur]
  refine ⟨?_, ?_, hs.1⟩
  · intro s hsmem
    rw [show (((do_transcribe bf (maybe_partial_text bp (append_pcm_chunk chunk e)).1).1,
        (⟨(do_transcribe bf (maybe_partial_text bp (append_pcm_chunk chunk e)).1).2, ""⟩ :
          FeedResult)) : Engine × FeedResult).2.final =
        (do_transcribe bf (maybe_partial_text bp (append_pcm_chunk chunk e)).1).2 from rfl,
      hs.2.2.1] at hsmem
    obtain ⟨bs, hbs, hmem⟩ := process_segs_mem _ info.language bsegs _ _ s hsmem
    refine ⟨bs, hbs, ?_, ?_⟩
    · rw [hmem.2.1, hpr.2.1, hap.2.1]
    · rw [hmem.2.2.1, hpr.2.1, hap.2.1]
  · show (do_transcribe bf (maybe_partial_text bp (append_pcm_chunk chunk e)).1).1.time_offset_sec = _
    rw [hs.2.1, hpr.2.1, hap.2.1, hpr.1]

/-- Witness for C8: feeding the empty chunk to the fixture holding exactly
5000 ms of audio advances the time offset by the buffer's duration and leaves
the buffer empty. -/
theorem C8_full_pass_witness :
    (feed_audio bp_err bf_hi [] e80).1.time_offset_sec =
      e80.time_offset_sec + ((append_pcm_chunk [] e80).pcm_buffer.length : ℚ) / (SAMPLE_RATE : ℚ) ∧
    (feed_audio bp_err bf_hi [] e80).1.pcm_buffer = [] :=
  ⟨(C8_full_pass e80 [] bp_err bf_hi [⟨0, 1, "hi"⟩] info_en rfl (fun _ => rfl)
      (by
        have h0 : append_pcm_chunk [] e80 = e80 := rfl
        have h2 : e80.pcm_buffer = List.replicate 80000 (0 : ℚ) := rfl
        rw [h0, duration_ms, h2, List.length_replicate]
        simp [SAMPLE_RATE, TRANSCRIBE_INTERVAL_MS])).2.1,
   (C8_full_pass e80 [] bp_err bf_hi [⟨0, 1, "hi"⟩] info_en rfl (fun _ => rfl)
      (by
        have h0 : append_pcm_chunk [] e80 = e80 := rfl
        have h2 : e80.pcm_buffer = List.replicate 80000 (0 : ℚ) := rfl
        rw [h0, duration_ms, h2, List.length_replicate]
        simp [SAMPLE_RATE, TRANSCRIBE_INTERVAL_MS])).2.2⟩

/-- Every control or worker event can only keep or increment the session id. -/
theorem step_sid_le (a : App) (ev : Ev) : a.sid ≤ (step a ev).sid := by
  cases ev with
  | enq c => exact le_of_eq ((handle_audio_chunk_frame c a).1).symm
  | startEv => exact Nat.le_succ a.sid
  | stopEv bf => exact Nat.le_succ a.sid
  | work bp bf => exact le_of_eq ((worker_step_frame bp bf a).2.1).symm

/-- Appending an entry with a different tag does not change the count of
entries tagged `N`. -/
theorem countTagged_append_ne (N : Nat) (l : List (Nat × List Nat)) (x : Nat × List Nat)
    (hx : x.1 ≠ N) : countTagged N (l ++ [x]) = countTagged N l := by
  unfold countTagged
  rw [List.filter_append]
  rw [show List.filter (fun p => p.1 == N) [x] = [] by simp [hx]]
  rw [List.append_nil]

/-- Once the session id has moved past `N`, no single event can add a fed
entry tagged `N`. -/
theorem step_countTagged (a : App) (ev : Ev) (N : Nat) (h : N < a.sid) :
    countTagged N (step a ev).fed = countTagged N a.fed := by
  cases ev with
  | enq c =>
    rw [show (step a (Ev.enq c)).fed = (handle_audio_chunk c a).1.fed from rfl,
      (handle_audio_chunk_frame c a).2]
  | startEv => rfl
  | stopEv bf => rfl
  | work bp bf =>
    rcases (worker_step_frame bp bf a).2.2 with hf | ⟨c, hf⟩
    · rw [show (step a (Ev.work bp bf)).fed = (worker_step bp bf a).fed from rfl, hf]
    · rw [show (step a (Ev.work bp bf)).fed = (worker_step bp bf a).fed from rfl, hf,
        countTagged_append_ne N a.fed (a.sid, c) (by simp; omega)]

/-- Along any continuation of a trace whose session id is already past `N`,
the set of fed chunks tagged `N` never grows. -/
theorem fold_countTagged (N : Nat) :
    ∀ (es : List Ev) (a : App), N < a.sid →
      countTagged N ((es.foldl step a)).fed = countTagged N a.fed := by
  intro es
  induction es with
  | nil => intro a _; rfl
  | cons ev rest ih =>
    intro a h
    rw [List.foldl_cons]
    rw [ih (step a ev) (lt_of_lt_of_le h (step_sid_le a ev))]
    exact step_countTagged a ev N h

/-- Claim C1: session isolation.  (1) Once the current session id has moved
past `N` — as it does on every stop or start — no later events can ever add a
fed chunk tagged `N`: stale audio is never fed to the recognizer after the
next session has begun.  (2) A worker iteration feeds at most the head chunk
and only when its tag equals the current session id (anything else is
discarded).  (3) Both the start and the stop handlers increment the session id
and then immediately and unconditionally drain every queued chunk, whatever
its tag. -/
theorem C1_session_isolation :
    (∀ (es1 es2 : List Ev) (N : Nat), N < (run es1).sid →
      countTagged N (run (es1 ++ es2)).fed = countTagged N (run es1).fed) ∧
    (∀ (bp bf : Oracle) (a : App),
      (worker_step bp bf a).fed = a.fed ∨
      ∃ c, (worker_step bp bf a).fed = a.fed ++ [(a.sid, c)]) ∧
    (∀ a : App, (handle_start a).sid = a.sid + 1 ∧ (handle_start a).queue = [] ∧
      ∀ bf : Oracle, (handle_stop bf a).1.sid = a.sid + 1 ∧
        (handle_stop bf a).1.queue = []) := by
  refine ⟨?_, ?_, ?_⟩
  · intro es1 es2 N h
    show countTagged N ((es1 ++ es2).foldl step App.init).fed = countTagged N (run es1).fed
    rw [List.foldl_append]
    exact fold_countTagged N es2 (run es1) h
  · intro bp bf a
    exact (worker_step_frame bp bf a).2.2
  · intro a
    exact ⟨rfl, rfl, fun bf => ⟨rfl, rfl⟩⟩

/-- Witness for C1: after a start event (session id 1), the count of fed
chunks tagged with session 0 never changes over a further enqueue plus a
worker iteration. -/
theorem C1_session_isolation_witness :
    countTagged 0 (run ([Ev.startEv] ++
      [Ev.enq [0, 0], Ev.work (fun _ => Except.error "x") (fun _ => Except.error "x")])).fed =
    countTagged 0 (run [Ev.startEv]).fed :=
  C1_session_isolation.1 [Ev.startEv]
    [Ev.enq [0, 0], Ev.work (fun _ => Except.error "x") (fun _ => Except.error "x")] 0
    (by decide)

/-- A both-ends strip only keeps characters of the original list. -/
theorem mem_strip_chars {p : Char → Bool} {l : List Char} {c : Char}
    (h : c ∈ strip_chars p l) : c ∈ l := by
  unfold strip_chars at h
  rw [List.mem_reverse] at h
  have h1 : c ∈ (l.dropWhile p).reverse := (List.dropWhile_sublist _).subset h
  rw [List.mem_reverse] at h1
  exact (List.dropWhile_sublist _).subset h1

/-- Every character emitted by the whitespace-collapsing pass is either the
inserted underscore or a non-whitespace character of the input. -/
theorem mem_collapse_ws {c : Char} :
    ∀ (l : List Char) (b : Bool), c ∈ collapse_ws b l →
      c = '_' ∨ (c ∈ l ∧ is_py_space c = false) := by
  intro l
  induction l with
  | nil => intro b h; simp [collapse_ws] at h
  | cons d rest ih =>
    intro b h
    simp only [collapse_ws] at h
    by_cases hd : is_py_space d
    · rw [if_pos hd] at h
      cases b with
      | true =>
        rcases ih true h with h' | h'
        · exact Or.inl h'
        · exact Or.inr ⟨List.mem_cons_of_mem _ h'.1, h'.2⟩
      | false =>
        rcases List.mem_cons.1 h with h' | h'
        · exact Or.inl h'
        · rcases ih true h' with h'' | h''
          · exact Or.inl h''
          · exact Or.inr ⟨List.mem_cons_of_mem _ h''.1, h''.2⟩
    · rw [if_neg hd] at h
      rcases List.mem_cons.1 h with h' | h'
      · subst h'
        exact Or.inr ⟨List.mem_cons_self _ _, by simpa using hd⟩
      · rcases ih false h' with h'' | h''
        · exact Or.inl h''
        · exact Or.inr ⟨List.mem_cons_of_mem _ h''.1, h''.2⟩

/-- A character kept by the safe-character filter that is not the space is in
the allowed result class. -/
theorem safe_keep_no_space {c : Char} (h : is_safe_keep c = true) (hs : c ≠ ' ') :
    is_allowed_result_char c = true := by
  simp only [is_safe_keep, Bool.or_eq_true, Bool.and_eq_true, beq_iff_eq,
    decide_eq_true_eq] at h
  simp only [is_allowed_result_char, Bool.or_eq_true, Bool.and_eq_true, beq_iff_eq,
    decide_eq_true_eq]
  rcases h with (((((((h | h) | h) | h) | h) | h) | h) | h) <;>
    first
    | exact absurd h hs
    | tauto

/-- Characters of the allowed result class are never whitespace and never a
path separator. -/
theorem allowed_result_char_props {c : Char} (h : is_allowed_result_char c = true) :
    is_py_space c = false ∧ c ≠ '/' ∧ c ≠ '\\' := by
  refine ⟨?_, ?_, ?_⟩
  · rw [Bool.eq_false_iff]
    intro habs
    simp only [is_py_space, Bool.or_eq_true, beq_iff_eq] at habs
    rcases habs with ((((h0 | h0) | h0) | h0) | h0) | h0 <;> subst h0 <;>
      exact absurd h (by decide)
  · rintro rfl; exact absurd h (by decide)
  · rintro rfl; exact absurd h (by decide)

/-- Claim C10 counterexample: the claim guarantees, for every input and every
non-empty fallback, a result with no path separators; with the empty input and
the fallback "/" the function returns the fallback unchanged, and the result
contains the path separator. -/
theorem C10_counterexample :
    sanitize_meeting_name [] ['/'] = ['/'] ∧ '/' ∈ sanitize_meeting_name [] ['/'] :=
  ⟨rfl, by decide⟩

/-- Claim C10 (amended): for every input and fallback, either the result is
the fallback returned unchanged (which happens exactly when the input is empty
or reduces to nothing after sanitization, and carries no safety guarantee of
its own), or the result is non-empty, at most 60 characters, and made only of
digits, ASCII letters, CJK ideographs, '_', '.' and '-' — in particular free
of whitespace and of the path separators '/' and '\\'.  The empty input always
yields the fallback unchanged. -/
theorem C10_sanitize_safe :
    (∀ (name fallback : List Char),
      sanitize_meeting_name name fallback = fallback ∨
      (sanitize_meeting_name name fallback ≠ [] ∧
       (sanitize_meeting_name name fallback).length ≤ 60 ∧
       ∀ c ∈ sanitize_meeting_name name fallback,
         is_allowed_result_char c = true ∧ is_py_space c = false ∧
         c ≠ '/' ∧ c ≠ '\\')) ∧
    (∀ fallback : List Char, sanitize_meeting_name [] fallback = fallback) := by
  constructor
  · intro name fallback
    simp only [sanitize_meeting_name]
    by_cases h0 : strip_chars is_py_space name = []
    · rw [if_pos h0]
      exact Or.inl rfl
    · rw [if_neg h0]
      set n1 := (strip_chars is_py_space name).map
        (fun c => if c == '/' || c == '\\' then '_' else c) with hn1
      set n2 := n1.filter is_safe_keep with hn2
      set n3 := collapse_ws false n2 with hn3
      set n4 := strip_chars (fun c => c == '.' || c == '_' || c == '-' || c == ' ') n3 with hn4
      by_cases h4 : n4 = []
      · rw [if_pos h4]
        exact Or.inl rfl
      · rw [if_neg h4]
        refine Or.inr ⟨?_, ?_, ?_⟩
        · intro htake
          rcases List.take_eq_nil_iff.1 htake with h | h
          · exact absurd h (by decide)
          · exact h4 h
        · exact List.length_take_le 60 n4
        · intro c hc
          have hc4 : c ∈ n4 := List.take_subset 60 n4 hc
          have hc3 : c ∈ n3 := mem_strip_chars hc4
          rcases mem_collapse_ws n2 false hc3 with hu | ⟨hc2, hnsp⟩
          · subst hu
            exact ⟨by decide, by decide, by decide, by decide⟩
          · have hsafe : is_safe_keep c = true := (List.mem_filter.1 hc2).2
            have hspace : c ≠ ' ' := by
              intro h'
              rw [h'] at hnsp
              exact absurd hnsp (by decide)
            have hallow := safe_keep_no_space hsafe hspace
            have hprops := allowed_result_char_props hallow
            exact ⟨hallow, hprops.1, hprops.2.1, hprops.2.2⟩
  · intro fallback
    rfl

/-- Witness for C10 (amended): the empty input returns the fallback "x"
unchanged. -/
theorem C10_sanitize_safe_witness : sanitize_meeting_name [] ['x'] = ['x'] :=
  C10_sanitize_safe.2 ['x']

end MeetingSTT
